import Mathlib

/-!
# Verification of the Miro item/selection/playlist model

A shallow embedding of the Python sources of the Miro media player
(`tv/portable/item.py`, `tv/portable/selection.py`,
`tv/lib/frontends/widgets/playlist.py`) together with proofs of the
specification claims about them.

Modelling conventions:
* Python strings are `String`; Python `dict`s keyed by object ids are
  functions `Nat → Option Nat`; Python `set`s of ids are `Finset Nat`.
* A feedparser entry is a record of optional fields; a missing attribute
  (which raises `AttributeError`/`KeyError` in Python, caught by the
  broad `except:` handlers) is `none`.
* A downloader is represented by the string its `getState()` returns,
  the only part of a downloader the modelled code consumes.
* A feed (class `Feed` lives outside the excerpted sources) is a record
  of the three attributes the item code reads: `isAutoDownloadable()`,
  `getEverything` and `startfrom`.
* Python `datetime` values are modelled as `WithTop ℕ`, with `⊤`
  standing for `datetime.max` (the greatest datetime).
* Methods that can raise are embedded in `Except (String × σ) σ`: an
  `error (msg, s)` result is an exception `msg` raised while the mutable
  state was `s`.
-/

namespace Miro

/-- An enclosure dictionary of a feedparser entry.  Only the two keys the
modelled code reads are represented; a `none` field is a missing key. -/
structure Enclosure where
  url : Option String
  type : Option String
deriving Repr, DecidableEq

/-- A feedparser entry.  `enclosures = none` models an entry without an
`enclosures` attribute, `link = none` an entry without a `link` attribute,
and `modified_parsed = none` an entry whose publication date cannot be
parsed (both make the corresponding Python attribute access raise). -/
structure Entry where
  enclosures : Option (List Enclosure)
  link : Option String
  modified_parsed : Option Nat
deriving Repr, DecidableEq

/-- Python 2 comparison of a one-character string (`s[-k].lower()`) with a
multi-character string literal: ordinary string equality (which is `False`
whenever the lengths differ, as in the source's `url[-8].lower() ==
'.torrent'` tests). -/
def pyCharEqStr (c : Char) (s : String) : Bool :=
  String.mk [c.toLower] == s

/-- The character `k` positions from the end of `u` (Python `u[-k]`);
only meaningful when `u.length > k`, matching the guards in the source. -/
def charFromEnd (u : String) (k : Nat) : Char :=
  (u.toList.drop (u.length - k)).headD ' '

/-- The last `k` characters of `u`, lowercased (Python `u[-k:].lower()`). -/
def lowerSuffix (u : String) (k : Nat) : String :=
  String.mk ((u.toList.drop (u.length - k)).map Char.toLower)

/-- Python's `str.startswith`, on the character lists of the strings. -/
def pyStartsWith (s pre : String) : Bool :=
  pre.toList.isPrefixOf s.toList

/-- `item.isVideoEnclosure` (item.py 1052-1071): an enclosure counts as a
video if its `type` is a known media MIME type or its `url` has a known
media extension. -/
def isVideoEnclosure (e : Enclosure) : Bool :=
  let hasVideoType :=
    match e.type with
    | some t =>
        pyStartsWith t "video/" || pyStartsWith t "audio/" ||
        t == "application/ogg" || t == "application/x-annodex" ||
        t == "application/x-bittorrent"
    | none => false
  let hasVideoExtension :=
    match e.url with
    | some u =>
        (decide (u.length > 4) &&
          (lowerSuffix u 4 ∈ [".mov", ".wmv", ".mp4", ".m4v", ".mp3",
            ".ogg", ".anx", ".mpg", ".avi"] : Bool)) ||
        (decide (u.length > 8) && pyCharEqStr (charFromEnd u 8) ".torrent") ||
        (decide (u.length > 5) && pyCharEqStr (charFromEnd u 5) ".mpeg")
    | none => false
  hasVideoType || hasVideoExtension

/-- The attributes of the item's feed that `Item.getState` reads.  The
`Feed` class is not part of the excerpted sources; these fields stand for
the results of `ufeed.isAutoDownloadable()`, `ufeed.getEverything` and
`ufeed.startfrom`. -/
structure Feed where
  isAutoDownloadable : Bool
  getEverything : Bool
  startfrom : WithTop Nat
deriving Repr, DecidableEq

/-- `item.Item`: the mutable fields of an item that the modelled methods
read.  `downloaders` holds the state string each attached downloader's
`getState()` reports, in list order.  `feed` inlines the record the
database lookup `self.getFeed()` would return. -/
structure Item where
  entry : Entry
  feed : Feed
  seen : Bool
  downloaders : List String
  expired : Bool
  startingDownload : Bool
  keep : Bool
  pendingManualDL : Bool
  lastDownloadFailed : Bool
deriving Repr, DecidableEq

/-- `Item.getFirstVideoEnclosure` (item.py 73-86): the first enclosure of
the entry satisfying `isVideoEnclosure`; `none` both when no enclosure
qualifies and when the `enclosures` attribute is missing (the `except:
pass` path). -/
def Item.getFirstVideoEnclosure (i : Item) : Option Enclosure :=
  match i.entry.enclosures with
  | none => none
  | some encs => encs.find? isVideoEnclosure

/-- `Item.getURL` (item.py 90-100): the `url` of the first video
enclosure, or `""` when the enclosure chain raises (no video enclosure,
or a video enclosure without a `url` key). -/
def Item.getURL (i : Item) : String :=
  match i.getFirstVideoEnclosure with
  | none => ""
  | some enc =>
      match enc.url with
      | none => ""
      | some u => u

/-- `Item.getLink` (item.py 793-802): the entry's `link` attribute, or
`""` when the attribute is missing. -/
def Item.getLink (i : Item) : String :=
  match i.entry.link with
  | none => ""
  | some l => l

/-- `Item.getPubDateParsed` (item.py 655-666): the parsed
`modified_parsed` date, or `datetime.max` (modelled as `⊤`) when parsing
raises. -/
def Item.getPubDateParsed (i : Item) : WithTop Nat :=
  match i.entry.modified_parsed with
  | some t => (t : WithTop Nat)
  | none => ⊤

/-- The downloader loop of `Item.getStateNoAuto` (item.py 471-477):
starting from `state`, each downloader state that is not `"finished"`
replaces the running state, and the loop breaks as soon as the running
state is `"failed"`. -/
def downloaderLoop : String → List String → String
  | state, [] => state
  | state, d :: rest =>
      let state1 := if d ≠ "finished" then d else state
      if state1 = "failed" then state1 else downloaderLoop state1 rest

/-- `Item.getStateNoAuto` (item.py 454-482): the priority chain over the
item's flags, the downloader loop, and the final watched override. -/
def Item.getStateNoAuto (i : Item) : String :=
  let state :=
    if i.expired then "expired"
    else if i.startingDownload then "downloading"
    else if i.keep then "saved"
    else if i.pendingManualDL then "manualpending"
    else if i.downloaders.length = 0 then
      (if i.lastDownloadFailed then "failed" else "stopped")
    else downloaderLoop "finished" i.downloaders
  if (state = "finished" ∨ state = "uploading") ∧ i.seen then "watched"
  else state

/-- `Item.getState` (item.py 431-448): `getStateNoAuto`, with `"stopped"`
promoted to `"autopending"` when the feed is auto-downloadable and either
fetches everything or the parsed publication date is at least the feed's
`startfrom` and is not `datetime.max`. -/
def Item.getState (i : Item) : String :=
  let state := i.getStateNoAuto
  if state = "stopped" ∧ i.feed.isAutoDownloadable = true ∧
      (i.feed.getEverything = true ∨
        (i.feed.startfrom ≤ i.getPubDateParsed ∧ i.getPubDateParsed ≠ ⊤))
    then "autopending"
  else state

/-- `item.FileItem`: the two fields its `getState` reads (`getSeen()`
reads the inherited `seen` flag). -/
structure FileItem where
  deleted : Bool
  seen : Bool
deriving Repr, DecidableEq

/-- `FileItem.getState` (item.py 978-984). -/
def FileItem.getState (f : FileItem) : String :=
  if f.deleted then "deleted"
  else if f.seen then "saved"
  else "finished"

/-- The ten human-readable state labels named by the specification. -/
def stateLabels : List String :=
  ["expired", "downloading", "saved", "manualpending", "stopped",
   "failed", "finished", "watched", "autopending", "uploading"]

/-- Spec-side reading of the downloader-derived state: `"failed"` as soon
as some downloader reports `"failed"` (the early stop), otherwise the last
non-`"finished"` downloader state, otherwise `"finished"`. -/
def specDownloaderState (ds : List String) : String :=
  if "failed" ∈ ds then "failed"
  else
    match (ds.filter (fun d => d ≠ "finished")).getLast? with
    | some st => st
    | none => "finished"

/-- Spec-side reading of `getStateNoAuto`, following the claim's words:
the priority-ordered conditionals over the flags, the downloader-derived
state, and the watched override on a derived `"finished"`/`"uploading"`. -/
def specStateNoAuto (i : Item) : String :=
  let state :=
    if i.expired then "expired"
    else if i.startingDownload then "downloading"
    else if i.keep then "saved"
    else if i.pendingManualDL then "manualpending"
    else if i.downloaders = [] then
      (if i.lastDownloadFailed then "failed" else "stopped")
    else specDownloaderState i.downloaders
  if (state = "finished" ∨ state = "uploading") ∧ i.seen then "watched"
  else state

/-- `selection.SelectionArea` (selection.py 23-49): the view the current
selection lives in (`none` when nothing is selected), the set of selected
ids, and the per-object `setSelected` flags.  Views are identified by a
`Nat`; a view's iteration order, where needed, is a `List Nat` of ids. -/
structure SelectionArea where
  currentView : Option Nat
  currentSelection : Finset Nat
  selected : Nat → Bool

/-- `SelectionArea.clearSelection` (selection.py 71-81): deselect every
object in the current selection, empty the selection, and drop the
current view (with its callbacks). -/
def SelectionArea.clearSelection (s : SelectionArea) : SelectionArea :=
  { currentView := none
    currentSelection := ∅
    selected := fun i => if i ∈ s.currentSelection then false else s.selected i }

/-- `SelectionArea.switchView` (selection.py 42-49): a no-op when `v` is
already current; otherwise the previous selection (if any view was
current) is cleared before `v` becomes the current view. -/
def SelectionArea.switchView (s : SelectionArea) (v : Nat) : SelectionArea :=
  if s.currentView = some v then s
  else
    let s1 := if s.currentView.isSome then s.clearSelection else s
    { s1 with currentView := some v }

/-- `SelectionArea.selectItem` (selection.py 51-55): switch to `v`, mark
the object selected, and add its id to the selection. -/
def SelectionArea.selectItem (s : SelectionArea) (v id : Nat) : SelectionArea :=
  let s1 := s.switchView v
  { s1 with
    currentSelection := insert id s1.currentSelection
    selected := fun i => if i = id then true else s1.selected i }

/-- `SelectionArea.deselectItem` (selection.py 57-62): raises `ValueError`
(before any mutation) when `v` is not the current view; otherwise marks
the object deselected and removes the id (`set.remove` raises `KeyError`
after the object was already marked deselected when the id was not in the
selection). -/
def SelectionArea.deselectItem (s : SelectionArea) (v id : Nat) :
    Except (String × SelectionArea) SelectionArea :=
  if s.currentView ≠ some v then .error ("ValueError", s)
  else
    let s1 := { s with selected := fun i => if i = id then false else s.selected i }
    if id ∈ s.currentSelection then
      .ok { s1 with currentSelection := s.currentSelection.erase id }
    else .error ("KeyError", s1)

/-- `SelectionArea.toggleItemSelect` (selection.py 64-69). -/
def SelectionArea.toggleItemSelect (s : SelectionArea) (v id : Nat) :
    Except (String × SelectionArea) SelectionArea :=
  let s1 := s.switchView v
  if id ∈ s1.currentSelection then s1.deselectItem v id
  else .ok (s1.selectItem v id)

/-- `SelectionArea.onRemove` (selection.py 132-136): `ex` is what
`obj.idExists()` returns for the removed object. -/
def SelectionArea.onRemove (s : SelectionArea) (id : Nat) (ex : Bool) :
    SelectionArea :=
  if id ∈ s.currentSelection then
    { s with
      currentSelection := s.currentSelection.erase id
      selected := fun i => if ex ∧ i = id then false else s.selected i }
  else s

/-- `SelectionArea.onAdd` (selection.py 138-142): re-adds an object that
is still marked selected (the playlist reorder case). -/
def SelectionArea.onAdd (s : SelectionArea) (id : Nat) : SelectionArea :=
  if s.selected id = true ∧ id ∉ s.currentSelection then
    { s with currentSelection := insert id s.currentSelection }
  else s

/-- Run an embedded method to its post-state: the state an exception was
raised in when it raises, the returned state otherwise. -/
def runSel (r : Except (String × SelectionArea) SelectionArea) : SelectionArea :=
  match r with
  | .ok s => s
  | .error (_, s) => s

/-- Python 2 equality between the `int` result of `len(...)` and a
`set` literal, as written in `TabSelectionArea.toggleItemSelect`
(selection.py 190): comparison between distinct built-in types, always
`False`. -/
def pyIntEqSet (_n : Nat) (_t : Finset Nat) : Bool := false

/-- `TabSelectionArea.toggleItemSelect` (selection.py 187-193), including
the source's comparison `len(self.currentSelection) == set([id])`. -/
def tabToggleItemSelect (s : SelectionArea) (v id : Nat) :
    Except (String × SelectionArea) SelectionArea :=
  if pyIntEqSet s.currentSelection.card {id} then .ok s
  else s.toggleItemSelect v id

/-- The accumulator of `SelectionArea.calcExtendRange`'s loop
(selection.py 84-95). -/
structure ExtendAcc where
  idIsBefore : Bool
  gotFirst : Bool
  firstID : Option Nat
  lastID : Option Nat
deriving Repr, DecidableEq

/-- The loop of `SelectionArea.calcExtendRange` (selection.py 87-95) over
the view's iteration order (`getID(obj)` for each object, in order). -/
def calcExtendLoop (sel : Finset Nat) (id : Nat) :
    ExtendAcc → List Nat → ExtendAcc
  | st, [] => st
  | st, objID :: rest =>
      let st1 :=
        if objID = id ∧ ¬st.gotFirst then { st with idIsBefore := true } else st
      let st2 :=
        if objID ∈ sel then
          let st' :=
            if ¬st1.gotFirst then
              { st1 with firstID := some objID, gotFirst := true }
            else st1
          { st' with lastID := some objID }
        else st1
      calcExtendLoop sel id st2 rest

/-- `SelectionArea.calcExtendRange` (selection.py 83-101), as a function
of the view's iteration order and the current selection; `none` is the
`AssertionError` raised when no selected id was found in the view. -/
def calcExtendRange (view : List Nat) (sel : Finset Nat) (id : Nat) :
    Option (Nat × Nat) :=
  let st := calcExtendLoop sel id ⟨false, false, none, none⟩ view
  match st.firstID, st.lastID with
  | some f, some l => some (if st.idIsBefore then (id, l) else (f, id))
  | _, _ => none

/-- `playlist.PlaylistSort` (playlist.py 83-106): the position dict and
the `itertools.count()` counter (`current_postion` keeps the source's
spelling; its value is the next number the counter will yield).  Items
are represented by their `id`. -/
structure PlaylistSort where
  positions : Nat → Option Nat
  current_postion : Nat

/-- One iteration of the `add_items` loop (playlist.py 93-95): an id not
yet in the dict is assigned the next counter value. -/
def addOne (ps : PlaylistSort) (id : Nat) : PlaylistSort :=
  match ps.positions id with
  | some _ => ps
  | none =>
      { positions := fun j => if j = id then some ps.current_postion else ps.positions j
        current_postion := ps.current_postion + 1 }

/-- `PlaylistSort.add_items` (playlist.py 92-95). -/
def add_items (ps : PlaylistSort) (item_list : List Nat) : PlaylistSort :=
  item_list.foldl addOne ps

/-- A sequence of `add_items` calls. -/
def addSeq (ps : PlaylistSort) (calls : List (List Nat)) : PlaylistSort :=
  calls.foldl add_items ps

/-- The dict comprehension of `set_new_order` (playlist.py 102-103),
binding each id of `id_order` to a fresh counter value `c`, `c+1`, …; a
later duplicate overwrites an earlier binding, as in a Python dict. -/
def ordPositions (c : Nat) : List Nat → Nat → Option Nat
  | [], _ => none
  | id :: rest, j =>
      match ordPositions (c + 1) rest j with
      | some p => some p
      | none => if j = id then some c else none

/-- `PlaylistSort.set_new_order` (playlist.py 101-103): the position dict
is rebuilt wholesale from `id_order`, consuming one counter value per
element. -/
def set_new_order (ps : PlaylistSort) (id_order : List Nat) : PlaylistSort :=
  { positions := ordPositions ps.current_postion id_order
    current_postion := ps.current_postion + id_order.length }

/-- `PlaylistSort.sort_key` (playlist.py 105-106); `none` is the
`KeyError` on an unknown id. -/
def sort_key (ps : PlaylistSort) (id : Nat) : Option Nat :=
  ps.positions id

/-- The comparison `sorted(ids, key=sort_key)` sorts by: the sort keys in
non-decreasing order. -/
def sortKeyRel (ps : PlaylistSort) (a b : Nat) : Prop :=
  (sort_key ps a).getD 0 ≤ (sort_key ps b).getD 0

instance (ps : PlaylistSort) : DecidableRel (sortKeyRel ps) := fun _ _ => by
  unfold sortKeyRel; infer_instance

/-- `a` is first encountered strictly before `b` in `l` (and `b` does
occur): scanning `l`, `a` is found before any occurrence of `b`, and `b`
occurs later. -/
def firstBefore (a b : Nat) : List Nat → Bool
  | [] => false
  | x :: r => if x = b then false else if x = a then r.contains b else firstBefore a b r

/-- The automatic-download eligibility test of `Item.getState`
(item.py 439-442): the feed is auto-downloadable and either fetches
everything or the parsed publication date is at least the feed's
`startfrom` and is not `datetime.max`. -/
def autoDownloadEligible (i : Item) : Prop :=
  i.feed.isAutoDownloadable = true ∧
    (i.feed.getEverything = true ∨
      (i.feed.startfrom ≤ i.getPubDateParsed ∧ i.getPubDateParsed ≠ ⊤))

instance (i : Item) : Decidable (autoDownloadEligible i) := by
  unfold autoDownloadEligible; infer_instance

/-- `id` occurs in the iteration order at or before the first selected
object: scanning, `id` is found no later than the first element of `sel`
(an element that is both `id` and the first selected counts, because the
loop tests `objID == id` before recording the first selected object). -/
def idIsBeforeSpec (sel : Finset Nat) (id : Nat) : List Nat → Bool
  | [] => false
  | x :: r =>
      if x = id then true
      else if x ∈ sel then false
      else idIsBeforeSpec sel id r

/-- The claim's reading: `id` occurs in the iteration order strictly
before the first selected object. -/
def idStrictlyBeforeSpec (sel : Finset Nat) (id : Nat) : List Nat → Bool
  | [] => false
  | x :: r =>
      if x ∈ sel then false
      else if x = id then true
      else idStrictlyBeforeSpec sel id r

/-- The single-view invariant of a `SelectionArea`: every id in
`currentSelection` is marked selected, and the selection is non-empty
only when some view is current. -/
def SelInvariant (s : SelectionArea) : Prop :=
  (∀ id ∈ s.currentSelection, s.selected id = true) ∧
  (s.currentSelection ≠ ∅ → s.currentView ≠ none)

/-- One public operation on a `SelectionArea` (selection.py 42-142).  The
`onRemove`/`onAdd` callbacks fire only while they are registered, which
the source does exactly when some view is current. -/
inductive SelStep : SelectionArea → SelectionArea → Prop where
  | select (s : SelectionArea) (v id : Nat) : SelStep s (s.selectItem v id)
  | deselect (s : SelectionArea) (v id : Nat) :
      SelStep s (runSel (s.deselectItem v id))
  | toggle (s : SelectionArea) (v id : Nat) :
      SelStep s (runSel (s.toggleItemSelect v id))
  | switch (s : SelectionArea) (v : Nat) : SelStep s (s.switchView v)
  | clear (s : SelectionArea) : SelStep s s.clearSelection
  | remove (s : SelectionArea) (id : Nat) (ex : Bool)
      (h : s.currentView ≠ none) : SelStep s (s.onRemove id ex)
  | add (s : SelectionArea) (id : Nat) (h : s.currentView ≠ none) :
      SelStep s (s.onAdd id)

theorem getLast?_cons_some {α : Type} (a : α) (l : List α) :
    (a :: l).getLast? = some (l.getLast?.getD a) := by
  induction l generalizing a with
  | nil => rfl
  | cons b m ih => simp [List.getLast?_cons_cons, ih b]

theorem downloaderLoop_eq_spec (ds : List String) :
    ∀ st : String, st ≠ "failed" →
      downloaderLoop st ds =
        if "failed" ∈ ds then "failed"
        else ((ds.filter (fun d => d ≠ "finished")).getLast?).getD st := by
  induction ds with
  | nil => intro st _; simp [downloaderLoop]
  | cons d rest ih =>
      intro st hst
      by_cases hd : d = "failed"
      · subst hd
        simp [downloaderLoop]
      · have hstep : (if d ≠ "finished" then d else st) ≠ "failed" := by
          by_cases hfin : d = "finished" <;> simp [hfin, hst, hd]
        rw [downloaderLoop]
        simp only [if_neg hstep]
        rw [ih _ hstep]
        by_cases hmem : "failed" ∈ rest
        · simp [hmem, List.mem_cons, hd]
        · have hmem' : "failed" ∉ d :: rest := by
            intro h
            rcases List.mem_cons.mp h with h' | h'
            · exact hd h'.symm
            · exact hmem h'
          simp only [if_neg hmem, if_neg hmem']
          by_cases hfin : d = "finished"
          · simp [hfin]
          · have hif : (if d ≠ "finished" then d else st) = d := by simp [hfin]
            rw [hif, List.filter_cons_of_pos (by simp [hfin]), getLast?_cons_some]
            cases hlast : (rest.filter (fun x => decide (x ≠ "finished"))).getLast? <;>
              simp [hlast]

/-- C1: `getStateNoAuto` derives the state label by the priority-ordered
conditionals over the item's boolean flags and its downloaders' states,
exactly as the specification describes: `"expired"`, `"downloading"`,
`"saved"`, `"manualpending"` from the flags in that order; with no
downloaders, `"failed"`/`"stopped"` from `lastDownloadFailed`; otherwise
the downloader-derived state (`"finished"` unless some downloader reports
a non-finished state, stopping early at `"failed"`); with a derived
`"finished"`/`"uploading"` turned into `"watched"` for a seen item. -/
theorem getStateNoAuto_matches_spec (i : Item) :
    i.getStateNoAuto = specStateNoAuto i := by
  unfold Item.getStateNoAuto specStateNoAuto
  have hds : (i.downloaders.length = 0) = (i.downloaders = []) := by
    simp [List.length_eq_zero]
  by_cases h1 : i.expired
  · simp [h1]
  · by_cases h2 : i.startingDownload
    · simp [h1, h2]
    · by_cases h3 : i.keep
      · simp [h1, h2, h3]
      · by_cases h4 : i.pendingManualDL
        · simp [h1, h2, h3, h4]
        · by_cases h5 : i.downloaders = []
          · simp [h1, h2, h3, h4, h5]
          · have h5' : ¬(i.downloaders.length = 0) := by
              simp [List.length_eq_zero, h5]
            simp only [h1, h2, h3, h4, h5, h5', if_false, if_neg h5, if_neg h5']
            rw [downloaderLoop_eq_spec i.downloaders "finished" (by simp)]
            unfold specDownloaderState
            by_cases hmem : "failed" ∈ i.downloaders
            · simp [hmem]
            · simp only [if_neg hmem]
              cases hlast : (i.downloaders.filter (fun d => d ≠ "finished")).getLast? <;>
                simp [hlast]

theorem downloaderLoop_mem (ds : List String) :
    ∀ st : String, downloaderLoop st ds = st ∨ downloaderLoop st ds ∈ ds := by
  induction ds with
  | nil => intro st; left; rfl
  | cons d rest ih =>
      intro st
      rw [downloaderLoop]
      by_cases hbrk : (if d ≠ "finished" then d else st) = "failed"
      · rw [if_pos hbrk]
        by_cases hfin : d = "finished"
        · left; simp [hfin]
        · right; simp [hfin, List.mem_cons]
      · rw [if_neg hbrk]
        rcases ih (if d ≠ "finished" then d else st) with h | h
        · rw [h]
          by_cases hfin : d = "finished"
          · left; simp [hfin]
          · right; simp [hfin, List.mem_cons]
        · right; exact List.mem_cons_of_mem d h

theorem getStateNoAuto_mem_labels (i : Item)
    (h : ∀ d ∈ i.downloaders, d ∈ stateLabels) :
    i.getStateNoAuto ∈ stateLabels := by
  unfold Item.getStateNoAuto
  by_cases hw : ((if i.expired then "expired"
      else if i.startingDownload then "downloading"
      else if i.keep then "saved"
      else if i.pendingManualDL then "manualpending"
      else if i.downloaders.length = 0 then
        (if i.lastDownloadFailed then "failed" else "stopped")
      else downloaderLoop "finished" i.downloaders) = "finished" ∨
      (if i.expired then "expired"
      else if i.startingDownload then "downloading"
      else if i.keep then "saved"
      else if i.pendingManualDL then "manualpending"
      else if i.downloaders.length = 0 then
        (if i.lastDownloadFailed then "failed" else "stopped")
      else downloaderLoop "finished" i.downloaders) = "uploading") ∧ i.seen
  · rw [if_pos hw]; simp [stateLabels]
  · rw [if_neg hw]
    by_cases h1 : i.expired
    · simp [h1, stateLabels]
    · by_cases h2 : i.startingDownload
      · simp [h1, h2, stateLabels]
      · by_cases h3 : i.keep
        · simp [h1, h2, h3, stateLabels]
        · by_cases h4 : i.pendingManualDL
          · simp [h1, h2, h3, h4, stateLabels]
          · by_cases h5 : i.downloaders.length = 0
            · by_cases h6 : i.lastDownloadFailed <;>
                simp [h1, h2, h3, h4, h5, h6, stateLabels]
            · simp only [if_neg h1, if_neg h2, if_neg h3, if_neg h4, if_neg h5]
              rcases downloaderLoop_mem i.downloaders "finished" with hm | hm
              · rw [hm]; simp [stateLabels]
              · exact h _ hm

/-- Amended C2: for every `Item` whose attached downloaders all report
one of the ten labels, `getState()` returns one of the ten labels; a
`FileItem`'s `getState()` also returns one of the ten (`"saved"` or
`"finished"`) while its `deleted` flag is clear, but returns the
eleventh string `"deleted"` once the flag is set. -/
theorem getState_returns_ten_labels :
    (∀ i : Item, (∀ d ∈ i.downloaders, d ∈ stateLabels) →
      i.getState ∈ stateLabels) ∧
    (∀ f : FileItem,
      (f.deleted = false → f.getState ∈ stateLabels) ∧
      (f.deleted = true → f.getState = "deleted" ∧ "deleted" ∉ stateLabels)) := by
  constructor
  · intro i h
    unfold Item.getState
    by_cases hc : i.getStateNoAuto = "stopped" ∧ i.feed.isAutoDownloadable = true ∧
        (i.feed.getEverything = true ∨
          (i.feed.startfrom ≤ i.getPubDateParsed ∧ i.getPubDateParsed ≠ ⊤))
    · rw [if_pos hc]; simp [stateLabels]
    · rw [if_neg hc]; exact getStateNoAuto_mem_labels i h
  · intro f
    constructor
    · intro hdel
      by_cases hs : f.seen <;> simp [FileItem.getState, hdel, hs, stateLabels]
    · intro hdel
      refine ⟨by simp [FileItem.getState, hdel], by decide⟩

/-- Counterexample to C2 as stated: a `FileItem` whose `deleted` flag is
set (it has no downloaders at all, so the claim's proviso is vacuously
satisfied) gets the state `"deleted"`, a string outside the ten labels. -/
theorem fileItem_deleted_outside_labels :
    FileItem.getState ⟨true, false⟩ = "deleted" ∧
      "deleted" ∉ stateLabels := by
  exact ⟨rfl, by decide⟩

/-- Witness for the amended C2 at a concrete item and file item. -/
theorem getState_returns_ten_labels_witness :
    Item.getState ⟨⟨none, none, none⟩, ⟨false, false, ⊤⟩, false, ["downloading"],
        false, false, false, false, false⟩ ∈ stateLabels ∧
      FileItem.getState ⟨false, true⟩ ∈ stateLabels := by
  constructor
  · exact getState_returns_ten_labels.1 _ (by decide)
  · exact (getState_returns_ten_labels.2 ⟨false, true⟩).1 rfl

/-- Amended C3: `getState()` differs from `getStateNoAuto()` only in the
automatic-download check: it returns `"autopending"` exactly when
`getStateNoAuto()` returns `"stopped"` and the item is eligible for
automatic download, or when `getStateNoAuto()` itself returns
`"autopending"` (possible only if a downloader reports that string); in
every case where the automatic-download check fails, `getState()` returns
the same label as `getStateNoAuto()`. -/
theorem getState_differs_only_in_auto_check (i : Item) :
    (i.getState = "autopending" ↔
      ((i.getStateNoAuto = "stopped" ∧ autoDownloadEligible i) ∨
        i.getStateNoAuto = "autopending")) ∧
    (¬(i.getStateNoAuto = "stopped" ∧ autoDownloadEligible i) →
      i.getState = i.getStateNoAuto) := by
  unfold Item.getState autoDownloadEligible
  by_cases hc : i.getStateNoAuto = "stopped" ∧ i.feed.isAutoDownloadable = true ∧
      (i.feed.getEverything = true ∨
        (i.feed.startfrom ≤ i.getPubDateParsed ∧ i.getPubDateParsed ≠ ⊤))
  · rw [if_pos hc]
    constructor
    · exact iff_of_true rfl (Or.inl ⟨hc.1, hc.2⟩)
    · intro h; exact absurd ⟨hc.1, hc.2⟩ h
  · rw [if_neg hc]
    constructor
    · constructor
      · intro h; exact Or.inr h
      · rintro (h | h)
        · exact absurd ⟨h.1, h.2⟩ hc
        · exact h
    · intro _; rfl

/-- Counterexample to C3 as stated: an item whose single downloader
reports `"autopending"`.  `getState()` returns `"autopending"` even
though `getStateNoAuto()` is not `"stopped"` (and the feed is not even
auto-downloadable), so the claimed "exactly when" fails. -/
theorem getState_autopending_without_auto_check :
    Item.getState ⟨⟨none, none, none⟩, ⟨false, false, (0 : Nat)⟩, false,
        ["autopending"], false, false, false, false, false⟩ = "autopending" ∧
      ¬(Item.getStateNoAuto ⟨⟨none, none, none⟩, ⟨false, false, (0 : Nat)⟩, false,
        ["autopending"], false, false, false, false, false⟩ = "stopped" ∧
        autoDownloadEligible ⟨⟨none, none, none⟩, ⟨false, false, (0 : Nat)⟩, false,
        ["autopending"], false, false, false, false, false⟩) := by
  constructor
  · rfl
  · intro h
    exact absurd h.1 (by decide)

/-- Witness for the amended C3 at a concrete stopped, eligible item. -/
theorem getState_differs_only_in_auto_check_witness :
    Item.getState ⟨⟨none, none, some 5⟩, ⟨true, false, (3 : Nat)⟩, false, [],
        false, false, false, false, false⟩ = "autopending" := by
  exact (getState_differs_only_in_auto_check _).1.mpr
    (Or.inl ⟨rfl, by decide, Or.inr (by decide)⟩)

/-- C8: the display accessors suppress the exception and return an empty
default: `getURL()` is `""` when the item has no video enclosure or its
video enclosure has no `url` attribute, and `getLink()` is `""` when the
entry has no `link` attribute. -/
theorem display_accessors_return_empty_default (i : Item) :
    (i.getFirstVideoEnclosure = none → i.getURL = "") ∧
    (∀ enc : Enclosure, i.getFirstVideoEnclosure = some enc →
      enc.url = none → i.getURL = "") ∧
    (i.entry.link = none → i.getLink = "") := by
  refine ⟨?_, ?_, ?_⟩
  · intro h; unfold Item.getURL; rw [h]
  · intro enc h hurl
    unfold Item.getURL
    rw [h]
    show (match enc.url with | none => "" | some u => u) = ""
    rw [hurl]
  · intro h; unfold Item.getLink; rw [h]

/-- Witness for C8: an entry without an `enclosures` attribute and
without a `link` attribute yields `""` from both accessors, and so does
a video enclosure carrying no `url` key. -/
theorem display_accessors_return_empty_default_witness :
    Item.getURL ⟨⟨none, none, none⟩, ⟨false, false, ⊤⟩, false, [],
        false, false, false, false, false⟩ = "" ∧
      Item.getURL ⟨⟨some [⟨none, some "video/mp4"⟩], none, none⟩,
        ⟨false, false, ⊤⟩, false, [], false, false, false, false, false⟩ = "" ∧
      Item.getLink ⟨⟨none, none, none⟩, ⟨false, false, ⊤⟩, false, [],
        false, false, false, false, false⟩ = "" := by
  refine ⟨?_, ?_, ?_⟩
  · exact (display_accessors_return_empty_default _).1 rfl
  · exact (display_accessors_return_empty_default _).2.1
      ⟨none, some "video/mp4"⟩ (by decide) rfl
  · exact (display_accessors_return_empty_default _).2.2 rfl

/-- C10: for an id in the current selection, `deselectItem` raises
`ValueError` if and only if the view passed is not the current view, an
exception leaves the state untouched, and in the non-raising case the id
is removed from the selection and the object is marked deselected while
the current view stays the same. -/
theorem deselectItem_valueerror_iff (s : SelectionArea) (v id : Nat)
    (h : id ∈ s.currentSelection) :
    ((∃ t, s.deselectItem v id = .error ("ValueError", t)) ↔
      s.currentView ≠ some v) ∧
    (∀ msg t, s.deselectItem v id = .error (msg, t) → t = s) ∧
    (s.currentView = some v →
      ∃ s', s.deselectItem v id = .ok s' ∧
        s'.currentSelection = s.currentSelection.erase id ∧
        s'.selected id = false ∧
        s'.currentView = s.currentView) := by
  unfold SelectionArea.deselectItem
  by_cases hv : s.currentView = some v
  · have hne : ¬s.currentView ≠ some v := by simp [hv]
    rw [if_neg hne, if_pos h]
    refine ⟨?_, ?_, ?_⟩
    · constructor
      · rintro ⟨t, ht⟩; cases ht
      · intro hcontra; exact absurd hv hcontra
    · intro msg t ht; cases ht
    · intro _
      exact ⟨_, rfl, rfl, by simp, rfl⟩
  · have hne : s.currentView ≠ some v := hv
    rw [if_pos hne]
    refine ⟨?_, ?_, ?_⟩
    · exact iff_of_true ⟨s, rfl⟩ hne
    · intro msg t ht
      injection ht with h1
      injection h1 with _ h3
      exact h3.symm
    · intro hcontra; exact absurd hcontra hv

/-- Witness for C10: a concrete area with id 3 selected in view 0;
deselecting through view 1 raises `ValueError` leaving the state intact,
deselecting through view 0 removes the id. -/
theorem deselectItem_valueerror_iff_witness :
    (∃ t, SelectionArea.deselectItem
        ⟨some 0, {3}, fun i => decide (i = 3)⟩ 1 3 = .error ("ValueError", t)) ∧
      (∃ s', SelectionArea.deselectItem
        ⟨some 0, {3}, fun i => decide (i = 3)⟩ 0 3 = .ok s' ∧
        s'.currentSelection = ({3} : Finset Nat).erase 3 ∧
        s'.selected 3 = false ∧
        s'.currentView = some 0) := by
  constructor
  · exact (deselectItem_valueerror_iff ⟨some 0, {3}, fun i => decide (i = 3)⟩
      1 3 (by decide)).1.mpr (by simp)
  · exact (deselectItem_valueerror_iff ⟨some 0, {3}, fun i => decide (i = 3)⟩
      0 3 (by decide)).2.2 rfl

/-- C9 (code bug): in `TabSelectionArea.toggleItemSelect` the guard
`len(self.currentSelection) == set([id])` compares an `int` with a `set`,
which is always `False` in Python 2, so the guard never fires.  Starting
from a tab list whose selection is exactly the toggled id `5`, the toggle
therefore falls through to the plain `SelectionArea.toggleItemSelect` and
empties the selection, contrary to the method's stated purpose of never
deselecting the last selected tab. -/
theorem tabToggle_empties_singleton_selection :
    (⟨some 0, {5}, fun i => decide (i = 5)⟩ : SelectionArea).currentSelection
        = {5} ∧
      (runSel (tabToggleItemSelect ⟨some 0, {5}, fun i => decide (i = 5)⟩ 0 5)
        ).currentSelection = ∅ := by
  exact ⟨rfl, by decide⟩

theorem inv_clearSelection (s : SelectionArea) :
    SelInvariant s.clearSelection := by
  constructor
  · intro id hid; simp [SelectionArea.clearSelection] at hid
  · intro h; simp [SelectionArea.clearSelection] at h

theorem switchView_currentView (s : SelectionArea) (v : Nat) :
    (s.switchView v).currentView = some v := by
  unfold SelectionArea.switchView
  by_cases heq : s.currentView = some v
  · rw [if_pos heq]; exact heq
  · rw [if_neg heq]

theorem inv_switchView (s : SelectionArea) (v : Nat) (h : SelInvariant s) :
    SelInvariant (s.switchView v) := by
  unfold SelectionArea.switchView
  by_cases heq : s.currentView = some v
  · rw [if_pos heq]; exact h
  · rw [if_neg heq]
    by_cases hsome : s.currentView.isSome
    · rw [if_pos hsome]
      exact ⟨(inv_clearSelection s).1, fun _ hc => Option.noConfusion hc⟩
    · rw [if_neg hsome]
      exact ⟨h.1, fun _ hc => Option.noConfusion hc⟩

theorem inv_selectItem (s : SelectionArea) (v id : Nat) (h : SelInvariant s) :
    SelInvariant (s.selectItem v id) := by
  have h1 := inv_switchView s v h
  unfold SelectionArea.selectItem
  constructor
  · intro j hj
    rcases Finset.mem_insert.mp hj with hj | hj
    · simp [hj]
    · by_cases hje : j = id
      · simp [hje]
      · simpa [hje] using h1.1 j hj
  · intro _
    simp [switchView_currentView s v]

theorem inv_deselectItem (s : SelectionArea) (v id : Nat) (h : SelInvariant s) :
    SelInvariant (runSel (s.deselectItem v id)) := by
  unfold SelectionArea.deselectItem
  by_cases hv : s.currentView ≠ some v
  · rw [if_pos hv]; exact h
  · rw [if_neg hv]
    by_cases hid : id ∈ s.currentSelection
    · rw [if_pos hid]
      simp only [runSel]
      constructor
      · intro j hj
        have hjne : j ≠ id := Finset.ne_of_mem_erase hj
        have hjmem : j ∈ s.currentSelection := Finset.mem_of_mem_erase hj
        simpa [hjne] using h.1 j hjmem
      · intro hne
        have : s.currentSelection ≠ ∅ := by
          intro hc
          rw [hc] at hne
          simp at hne
        exact h.2 this
    · rw [if_neg hid]
      simp only [runSel]
      constructor
      · intro j hj
        have hjne : j ≠ id := by intro hc; rw [hc] at hj; exact hid hj
        simpa [hjne] using h.1 j hj
      · exact h.2

theorem inv_toggleItemSelect (s : SelectionArea) (v id : Nat)
    (h : SelInvariant s) :
    SelInvariant (runSel (s.toggleItemSelect v id)) := by
  unfold SelectionArea.toggleItemSelect
  by_cases hid : id ∈ (s.switchView v).currentSelection
  · rw [if_pos hid]
    exact inv_deselectItem _ v id (inv_switchView s v h)
  · rw [if_neg hid]
    exact inv_selectItem _ v id (inv_switchView s v h)

theorem inv_onRemove (s : SelectionArea) (id : Nat) (ex : Bool)
    (h : SelInvariant s) : SelInvariant (s.onRemove id ex) := by
  unfold SelectionArea.onRemove
  by_cases hid : id ∈ s.currentSelection
  · rw [if_pos hid]
    constructor
    · intro j hj
      have hjne : j ≠ id := Finset.ne_of_mem_erase hj
      have hjmem : j ∈ s.currentSelection := Finset.mem_of_mem_erase hj
      simpa [hjne] using h.1 j hjmem
    · intro hne
      have : s.currentSelection ≠ ∅ := by
        intro hc; rw [hc] at hne; simp at hne
      exact h.2 this
  · rw [if_neg hid]; exact h

theorem inv_onAdd (s : SelectionArea) (id : Nat)
    (hview : s.currentView ≠ none) (h : SelInvariant s) :
    SelInvariant (s.onAdd id) := by
  unfold SelectionArea.onAdd
  by_cases hc : s.selected id = true ∧ id ∉ s.currentSelection
  · rw [if_pos hc]
    constructor
    · intro j hj
      rcases Finset.mem_insert.mp hj with hj | hj
      · rw [hj]; exact hc.1
      · exact h.1 j hj
    · intro _; exact hview
  · rw [if_neg hc]; exact h

theorem selStep_preserves_invariant {s s' : SelectionArea}
    (h : SelInvariant s) (hstep : SelStep s s') : SelInvariant s' := by
  cases hstep with
  | select v id => exact inv_selectItem s v id h
  | deselect v id => exact inv_deselectItem s v id h
  | toggle v id => exact inv_toggleItemSelect s v id h
  | switch v => exact inv_switchView s v h
  | clear => exact inv_clearSelection s
  | remove id ex hv => exact inv_onRemove s id ex h
  | add id hv => exact inv_onAdd s id hv h

/-- C5: every sequence of the seven `SelectionArea` operations preserves
the single-view invariant (all selected ids are marked selected, and the
selection is non-empty only when some view is current), and switching to
a view different from the current one empties the previous selection,
deselecting all its objects, before adopting the new view. -/
theorem selectionArea_single_view_invariant :
    (∀ s s' : SelectionArea, SelInvariant s →
      Relation.ReflTransGen SelStep s s' → SelInvariant s') ∧
    (∀ (s : SelectionArea) (v : Nat), SelInvariant s →
      s.currentView ≠ some v →
      (s.switchView v).currentView = some v ∧
      (s.switchView v).currentSelection = ∅ ∧
      ∀ id ∈ s.currentSelection, (s.switchView v).selected id = false) := by
  constructor
  · intro s s' hinv hseq
    induction hseq with
    | refl => exact hinv
    | tail _ hstep ih => exact selStep_preserves_invariant ih hstep
  · intro s v hinv hne
    refine ⟨switchView_currentView s v, ?_, ?_⟩
    · unfold SelectionArea.switchView
      rw [if_neg hne]
      cases hcv : s.currentView with
      | none =>
          have hsel : s.currentSelection = ∅ := by
            by_contra hc
            exact (hinv.2 hc) hcv
          simp [hcv, SelectionArea.clearSelection, hsel]
      | some w => simp [hcv, SelectionArea.clearSelection]
    · intro id hid
      unfold SelectionArea.switchView
      rw [if_neg hne]
      cases hcv : s.currentView with
      | none =>
          have hsel : s.currentSelection = ∅ := by
            by_contra hc
            exact (hinv.2 hc) hcv
          rw [hsel] at hid
          simp at hid
      | some w => simp [hcv, SelectionArea.clearSelection, hid]

/-- Witness for C5: the invariant holds of the empty area and is carried
through the empty operation sequence, and switching the empty area to
view 7 yields view 7 with an empty selection. -/
theorem selectionArea_single_view_invariant_witness :
    SelInvariant ⟨none, ∅, fun _ => false⟩ ∧
      (SelectionArea.switchView ⟨none, ∅, fun _ => false⟩ 7).currentView
        = some 7 ∧
      (SelectionArea.switchView ⟨none, ∅, fun _ => false⟩ 7).currentSelection
        = ∅ := by
  have hinv : SelInvariant (⟨none, ∅, fun _ => false⟩ : SelectionArea) := by
    constructor
    · intro id hid; simp at hid
    · intro h; simp at h
  refine ⟨selectionArea_single_view_invariant.1 _ _ hinv .refl, ?_, ?_⟩
  · exact (selectionArea_single_view_invariant.2 _ 7 hinv (by simp)).1
  · exact (selectionArea_single_view_invariant.2 _ 7 hinv (by simp)).2.1

theorem calcExtendLoop_gotFirst (sel : Finset Nat) (id : Nat) :
    ∀ (l : List Nat) (st : ExtendAcc), st.gotFirst = true →
      (calcExtendLoop sel id st l).idIsBefore = st.idIsBefore ∧
      (calcExtendLoop sel id st l).firstID = st.firstID ∧
      (calcExtendLoop sel id st l).lastID =
        (match (l.filter (fun x => decide (x ∈ sel))).getLast? with
          | some x => some x
          | none => st.lastID) := by
  intro l
  induction l with
  | nil => intro st hst; exact ⟨rfl, rfl, rfl⟩
  | cons x r ih =>
      intro st hst
      rw [calcExtendLoop]
      have h1 : (if x = id ∧ ¬st.gotFirst then { st with idIsBefore := true }
          else st) = st := by
        rw [if_neg]; rintro ⟨_, hc⟩; exact hc hst
      rw [h1]
      by_cases hmem : x ∈ sel
      · rw [if_pos hmem, if_neg (by rw [hst]; simp)]
        have := ih { st with lastID := some x } (by simp [hst])
        refine ⟨this.1, this.2.1, ?_⟩
        rw [this.2.2, List.filter_cons_of_pos (by simp [hmem]), getLast?_cons_some]
        cases hlast : (r.filter (fun y => decide (y ∈ sel))).getLast? <;>
          simp [hlast]
      · rw [if_neg hmem]
        have := ih st hst
        refine ⟨this.1, this.2.1, ?_⟩
        rw [this.2.2, List.filter_cons_of_neg (by simp [hmem])]

theorem calcExtendLoop_fresh (sel : Finset Nat) (id : Nat) :
    ∀ (l : List Nat) (b : Bool),
      (calcExtendLoop sel id ⟨b, false, none, none⟩ l).idIsBefore =
        (b || idIsBeforeSpec sel id l) ∧
      (calcExtendLoop sel id ⟨b, false, none, none⟩ l).firstID =
        (l.filter (fun x => decide (x ∈ sel))).head? ∧
      (calcExtendLoop sel id ⟨b, false, none, none⟩ l).lastID =
        (l.filter (fun x => decide (x ∈ sel))).getLast? := by
  intro l
  induction l with
  | nil => intro b; simp [calcExtendLoop, idIsBeforeSpec]
  | cons x r ih =>
      intro b
      by_cases hx : x = id
      · by_cases hmem : x ∈ sel
        · have hstep : calcExtendLoop sel id ⟨b, false, none, none⟩ (x :: r) =
              calcExtendLoop sel id ⟨true, true, some x, some x⟩ r := by
            have hmem' : id ∈ sel := hx ▸ hmem
            rw [calcExtendLoop]; simp [hx, hmem']
          have hgf := calcExtendLoop_gotFirst sel id r
            ⟨true, true, some x, some x⟩ rfl
          rw [hstep]
          refine ⟨?_, ?_, ?_⟩
          · rw [hgf.1]; simp [idIsBeforeSpec, hx]
          · rw [hgf.2.1, List.filter_cons_of_pos (by simp [hmem])]
            rfl
          · rw [hgf.2.2, List.filter_cons_of_pos (by simp [hmem]),
              getLast?_cons_some]
            cases hlast : (r.filter (fun y => decide (y ∈ sel))).getLast? <;>
              simp [hlast]
        · have hstep : calcExtendLoop sel id ⟨b, false, none, none⟩ (x :: r) =
              calcExtendLoop sel id ⟨true, false, none, none⟩ r := by
            have hmem' : id ∉ sel := fun hc => hmem (hx ▸ hc)
            rw [calcExtendLoop]; simp [hx, hmem']
          rw [hstep]
          have := ih true
          refine ⟨?_, ?_, ?_⟩
          · rw [this.1]; simp [idIsBeforeSpec, hx]
          · rw [this.2.1, List.filter_cons_of_neg (by simp [hmem])]
          · rw [this.2.2, List.filter_cons_of_neg (by simp [hmem])]
      · by_cases hmem : x ∈ sel
        · have hstep : calcExtendLoop sel id ⟨b, false, none, none⟩ (x :: r) =
              calcExtendLoop sel id ⟨b, true, some x, some x⟩ r := by
            rw [calcExtendLoop]; simp [hx, hmem]
          have hgf := calcExtendLoop_gotFirst sel id r
            ⟨b, true, some x, some x⟩ rfl
          rw [hstep]
          refine ⟨?_, ?_, ?_⟩
          · rw [hgf.1]; simp [idIsBeforeSpec, hx, hmem]
          · rw [hgf.2.1, List.filter_cons_of_pos (by simp [hmem])]
            rfl
          · rw [hgf.2.2, List.filter_cons_of_pos (by simp [hmem]),
              getLast?_cons_some]
            cases hlast : (r.filter (fun y => decide (y ∈ sel))).getLast? <;>
              simp [hlast]
        · have hstep : calcExtendLoop sel id ⟨b, false, none, none⟩ (x :: r) =
              calcExtendLoop sel id ⟨b, false, none, none⟩ r := by
            rw [calcExtendLoop]; simp [hx, hmem]
          rw [hstep]
          have := ih b
          refine ⟨?_, ?_, ?_⟩
          · rw [this.1]; simp [idIsBeforeSpec, hx, hmem]
          · rw [this.2.1, List.filter_cons_of_neg (by simp [hmem])]
          · rw [this.2.2, List.filter_cons_of_neg (by simp [hmem])]

/-- Amended C4: when the current selection is non-empty and every
selected id occurs in the view, `calcExtendRange(view, id)` returns
`(id, lastID)` if `id` occurs in the view's iteration order at or before
the first currently-selected object (the source records `idIsBefore`
before it marks the first selected object, so `id` coinciding with the
first selected object counts), and `(firstID, id)` otherwise, where
`firstID` and `lastID` are the first and last currently-selected ids in
the view's iteration order. -/
theorem calcExtendRange_first_last (view : List Nat) (sel : Finset Nat)
    (id : Nat) (hne : sel.Nonempty) (hsub : ∀ x ∈ sel, x ∈ view) :
    ∃ f l : Nat,
      (view.filter (fun x => decide (x ∈ sel))).head? = some f ∧
      (view.filter (fun x => decide (x ∈ sel))).getLast? = some l ∧
      calcExtendRange view sel id =
        some (if idIsBeforeSpec sel id view then (id, l) else (f, id)) := by
  obtain ⟨x, hx⟩ := hne
  have hxview : x ∈ view := hsub x hx
  have hfilter : view.filter (fun y => decide (y ∈ sel)) ≠ [] := by
    intro hc
    have : x ∈ view.filter (fun y => decide (y ∈ sel)) :=
      List.mem_filter.mpr ⟨hxview, by simp [hx]⟩
    rw [hc] at this
    simp at this
  obtain ⟨f, hf⟩ : ∃ f, (view.filter (fun y => decide (y ∈ sel))).head? = some f := by
    cases hh : (view.filter (fun y => decide (y ∈ sel))).head? with
    | none => exact absurd (List.head?_eq_none_iff.mp hh) hfilter
    | some f => exact ⟨f, rfl⟩
  obtain ⟨l, hl⟩ : ∃ l, (view.filter (fun y => decide (y ∈ sel))).getLast? = some l := by
    cases hh : (view.filter (fun y => decide (y ∈ sel))).getLast? with
    | none => exact absurd (List.getLast?_eq_none_iff.mp hh) hfilter
    | some l => exact ⟨l, rfl⟩
  refine ⟨f, l, hf, hl, ?_⟩
  have hc := calcExtendLoop_fresh sel id view false
  simp only [calcExtendRange]
  rw [hc.2.1, hc.2.2, hf, hl, hc.1]
  simp

/-- Witness for the amended C4 on the view `[1, 2, 3]` with selection
`{2}`: extending to id 1 (before the selection) yields `(1, 2)`,
extending to id 3 (after it) yields `(2, 3)`. -/
theorem calcExtendRange_first_last_witness :
    calcExtendRange [1, 2, 3] {2} 1 = some (1, 2) ∧
      calcExtendRange [1, 2, 3] {2} 3 = some (2, 3) := by
  constructor
  · obtain ⟨f, l, hf, hl, h⟩ := calcExtendRange_first_last [1, 2, 3] {2} 1
      ⟨2, by decide⟩ (by decide)
    have hf' : f = 2 := by
      have : some f = some 2 := by rw [← hf]; decide
      exact Option.some_injective _ this
    have hl' : l = 2 := by
      have : some l = some 2 := by rw [← hl]; decide
      exact Option.some_injective _ this
    rw [h, hf', hl']
    decide
  · obtain ⟨f, l, hf, hl, h⟩ := calcExtendRange_first_last [1, 2, 3] {2} 3
      ⟨2, by decide⟩ (by decide)
    have hf' : f = 2 := by
      have : some f = some 2 := by rw [← hf]; decide
      exact Option.some_injective _ this
    have hl' : l = 2 := by
      have : some l = some 2 := by rw [← hl]; decide
      exact Option.some_injective _ this
    rw [h, hf', hl']
    decide

/-- Counterexample to C4 as stated: on the view `[1, 2]` with both
elements selected, extending to id 1 — which is the first selected
object itself, hence not strictly before it — returns `(1, 2)` =
`(id, lastID)`, not the claimed `(firstID, id) = (1, 1)`. -/
theorem calcExtendRange_at_first_selected :
    idStrictlyBeforeSpec {1, 2} 1 [1, 2] = false ∧
      ([1, 2].filter (fun x => decide (x ∈ ({1, 2} : Finset Nat)))).head?
        = some 1 ∧
      ([1, 2].filter (fun x => decide (x ∈ ({1, 2} : Finset Nat)))).getLast?
        = some 2 ∧
      calcExtendRange [1, 2] {1, 2} 1 = some (1, 2) ∧
      some ((1 : Nat), (2 : Nat)) ≠ some ((1 : Nat), (1 : Nat)) := by
  decide

theorem addOne_positions_ne (ps : PlaylistSort) (x j : Nat) (hne : j ≠ x) :
    (addOne ps x).positions j = ps.positions j := by
  unfold addOne
  cases hpos : ps.positions x with
  | some _ => rfl
  | none => simp [hne]

theorem addFold_persist (l : List Nat) :
    ∀ (ps : PlaylistSort) (id p : Nat), ps.positions id = some p →
      (l.foldl addOne ps).positions id = some p := by
  induction l with
  | nil => intro ps id p h; exact h
  | cons x r ih =>
      intro ps id p h
      rw [List.foldl_cons]
      apply ih
      by_cases hne : id = x
      · subst hne
        unfold addOne
        rw [h]
        exact h
      · rw [addOne_positions_ne ps x id hne]; exact h

theorem addFold_counter_mono (l : List Nat) :
    ∀ ps : PlaylistSort,
      ps.current_postion ≤ (l.foldl addOne ps).current_postion := by
  induction l with
  | nil => intro ps; exact Nat.le_refl _
  | cons x r ih =>
      intro ps
      rw [List.foldl_cons]
      refine Nat.le_trans ?_ (ih (addOne ps x))
      unfold addOne
      cases hpos : ps.positions x with
      | some _ => exact Nat.le_refl _
      | none => exact Nat.le_succ _

theorem addFold_assigns (l : List Nat) :
    ∀ (ps : PlaylistSort) (a : Nat), ps.positions a = none → a ∈ l →
      ∃ pa, (l.foldl addOne ps).positions a = some pa ∧
        ps.current_postion ≤ pa := by
  induction l with
  | nil => intro ps a _ hmem; simp at hmem
  | cons x r ih =>
      intro ps a hnone hmem
      rw [List.foldl_cons]
      by_cases hxa : x = a
      · subst hxa
        refine ⟨ps.current_postion, ?_, Nat.le_refl _⟩
        apply addFold_persist
        unfold addOne
        rw [hnone]
        simp
      · have hmem' : a ∈ r := by
          rcases List.mem_cons.mp hmem with h | h
          · exact absurd h.symm hxa
          · exact h
        have hnone' : (addOne ps x).positions a = none := by
          rw [addOne_positions_ne ps x a (fun hc => hxa hc.symm)]; exact hnone
        obtain ⟨pa, hpa, hle⟩ := ih (addOne ps x) a hnone' hmem'
        refine ⟨pa, hpa, Nat.le_trans ?_ hle⟩
        unfold addOne
        cases hpos : ps.positions x with
        | some _ => exact Nat.le_refl _
        | none => exact Nat.le_succ _

theorem addFold_increasing (l : List Nat) :
    ∀ (ps : PlaylistSort) (a b : Nat),
      ps.positions a = none → ps.positions b = none →
      firstBefore a b l = true →
      ∃ pa pb, (l.foldl addOne ps).positions a = some pa ∧
        (l.foldl addOne ps).positions b = some pb ∧ pa < pb := by
  induction l with
  | nil => intro ps a b _ _ hfb; simp [firstBefore] at hfb
  | cons x r ih =>
      intro ps a b hna hnb hfb
      rw [firstBefore] at hfb
      by_cases hxb : x = b
      · rw [if_pos hxb] at hfb; cases hfb
      · rw [if_neg hxb] at hfb
        rw [List.foldl_cons]
        by_cases hxa : x = a
        · rw [if_pos hxa] at hfb
          subst hxa
          have hbr : b ∈ r := List.mem_of_elem_eq_true hfb
          have hassign : (addOne ps x).positions x = some ps.current_postion := by
            unfold addOne
            rw [hna]
            simp
          have hcounter : (addOne ps x).current_postion = ps.current_postion + 1 := by
            unfold addOne
            rw [hna]
          have hnb' : (addOne ps x).positions b = none := by
            rw [addOne_positions_ne ps x b (fun hc => hxb hc.symm)]; exact hnb
          obtain ⟨pb, hpb, hlepb⟩ := addFold_assigns r (addOne ps x) b hnb' hbr
          refine ⟨ps.current_postion, pb,
            addFold_persist r (addOne ps x) x ps.current_postion hassign,
            hpb, ?_⟩
          rw [hcounter] at hlepb
          exact Nat.lt_of_lt_of_le (Nat.lt_succ_self _) hlepb
        · rw [if_neg hxa] at hfb
          have hna' : (addOne ps x).positions a = none := by
            rw [addOne_positions_ne ps x a (fun hc => hxa hc.symm)]; exact hna
          have hnb' : (addOne ps x).positions b = none := by
            rw [addOne_positions_ne ps x b (fun hc => hxb hc.symm)]; exact hnb
          exact ih (addOne ps x) a b hna' hnb' hfb

theorem addSeq_eq_flatten (ps : PlaylistSort) (calls : List (List Nat)) :
    addSeq ps calls = calls.flatten.foldl addOne ps := by
  unfold addSeq add_items
  rw [List.foldl_flatten]

/-- C6: across any sequence of `add_items` calls, an id already in the
mapping keeps its existing position unchanged, an id first encountered in
the sequence is assigned a position, and the positions assigned strictly
increase in the order in which new items are first encountered across all
calls. -/
theorem playlistSort_first_insertion_monotone :
    (∀ (ps : PlaylistSort) (calls : List (List Nat)) (id p : Nat),
      ps.positions id = some p → (addSeq ps calls).positions id = some p) ∧
    (∀ (ps : PlaylistSort) (calls : List (List Nat)) (a : Nat),
      ps.positions a = none → a ∈ calls.flatten →
      ∃ pa, (addSeq ps calls).positions a = some pa) ∧
    (∀ (ps : PlaylistSort) (calls : List (List Nat)) (a b : Nat),
      ps.positions a = none → ps.positions b = none →
      firstBefore a b calls.flatten = true →
      ∃ pa pb, (addSeq ps calls).positions a = some pa ∧
        (addSeq ps calls).positions b = some pb ∧ pa < pb) := by
  refine ⟨?_, ?_, ?_⟩
  · intro ps calls id p h
    rw [addSeq_eq_flatten]
    exact addFold_persist _ ps id p h
  · intro ps calls a hnone hmem
    rw [addSeq_eq_flatten]
    obtain ⟨pa, hpa, _⟩ := addFold_assigns _ ps a hnone hmem
    exact ⟨pa, hpa⟩
  · intro ps calls a b hna hnb hfb
    rw [addSeq_eq_flatten]
    exact addFold_increasing _ ps a b hna hnb hfb

/-- Witness for C6 with the calls `[[1], [2, 1]]`: a pre-existing id 9
keeps position 4; id 1 (first encountered before id 2) gets a strictly
smaller position than id 2. -/
theorem playlistSort_first_insertion_monotone_witness :
    (addSeq ⟨fun j => if j = 9 then some 4 else none, 5⟩ [[1], [2, 1]]
      ).positions 9 = some 4 ∧
    (∃ pa pb, (addSeq ⟨fun _ => none, 0⟩ [[1], [2, 1]]).positions 1 = some pa ∧
      (addSeq ⟨fun _ => none, 0⟩ [[1], [2, 1]]).positions 2 = some pb ∧
      pa < pb) := by
  constructor
  · exact playlistSort_first_insertion_monotone.1
      ⟨fun j => if j = 9 then some 4 else none, 5⟩ [[1], [2, 1]] 9 4 rfl
  · exact playlistSort_first_insertion_monotone.2.2
      ⟨fun _ => none, 0⟩ [[1], [2, 1]] 1 2 rfl rfl (by decide)

theorem ordPositions_not_mem (l : List Nat) :
    ∀ c j : Nat, j ∉ l → ordPositions c l j = none := by
  induction l with
  | nil => intro c j _; rfl
  | cons x r ih =>
      intro c j h
      have hx : j ≠ x := fun hc => h (hc ▸ List.mem_cons_self x r)
      have hr : j ∉ r := fun hc => h (List.mem_cons_of_mem x hc)
      rw [ordPositions, ih (c + 1) j hr]
      simp [hx]

theorem ordPositions_mem (l : List Nat) :
    ∀ c j : Nat, j ∈ l → ∃ p, ordPositions c l j = some p := by
  induction l with
  | nil => intro c j h; simp at h
  | cons x r ih =>
      intro c j hmem
      rw [ordPositions]
      cases hres : ordPositions (c + 1) r j with
      | some p => exact ⟨p, rfl⟩
      | none =>
          rcases List.mem_cons.mp hmem with h | h
          · exact ⟨c, by simp [h]⟩
          · obtain ⟨p, hp⟩ := ih (c + 1) j h
            rw [hp] at hres
            cases hres

theorem ordPositions_getElem (l : List Nat) :
    ∀ (c : Nat), l.Nodup → ∀ (k : Nat) (hk : k < l.length),
      ordPositions c l l[k] = some (c + k) := by
  induction l with
  | nil => intro c _ k hk; simp at hk
  | cons x r ih =>
      intro c hnd k hk
      have hx : x ∈ x :: r := List.mem_cons_self x r
      have hnotin : x ∉ r := (List.nodup_cons.mp hnd).1
      have hndr : r.Nodup := (List.nodup_cons.mp hnd).2
      cases k with
      | zero =>
          show ordPositions c (x :: r) x = some (c + 0)
          rw [ordPositions, ordPositions_not_mem r (c + 1) x hnotin]
          simp
      | succ k =>
          have hk' : k < r.length := by
            simpa [List.length_cons, Nat.succ_lt_succ_iff] using hk
          show ordPositions c (x :: r) r[k] = some (c + (k + 1))
          rw [ordPositions, ih (c + 1) hndr k hk']
          have : c + 1 + k = c + (k + 1) := by omega
          rw [this]

/-- Amended C7: for every list of pairwise-distinct ids, `set_new_order`
rewrites the mapping wholesale: its keys become exactly the ids of
`id_order`, the new positions strictly increase along `id_order`, and
a stable sort of `id_order` by `sort_key` reproduces `id_order`. -/
theorem set_new_order_rewrites_wholesale (ps : PlaylistSort)
    (id_order : List Nat) (hnd : id_order.Nodup) :
    (∀ id, ((set_new_order ps id_order).positions id).isSome = true ↔
      id ∈ id_order) ∧
    List.Pairwise (fun a b => ∀ pa pb,
      (set_new_order ps id_order).positions a = some pa →
      (set_new_order ps id_order).positions b = some pb → pa < pb)
      id_order ∧
    List.insertionSort (sortKeyRel (set_new_order ps id_order)) id_order
      = id_order := by
  have hpos : (set_new_order ps id_order).positions =
      ordPositions ps.current_postion id_order := rfl
  refine ⟨?_, ?_, ?_⟩
  · intro id
    rw [hpos]
    constructor
    · intro hsome
      by_contra hmem
      rw [ordPositions_not_mem id_order ps.current_postion id hmem] at hsome
      cases hsome
    · intro hmem
      obtain ⟨p, hp⟩ := ordPositions_mem id_order ps.current_postion id hmem
      rw [hp]
      rfl
  · rw [List.pairwise_iff_getElem]
    intro i j hi hj hij pa pb hpa hpb
    rw [hpos, ordPositions_getElem id_order ps.current_postion hnd i hi] at hpa
    rw [hpos, ordPositions_getElem id_order ps.current_postion hnd j hj] at hpb
    have hpa' : pa = ps.current_postion + i := (Option.some_injective _ hpa).symm
    have hpb' : pb = ps.current_postion + j := (Option.some_injective _ hpb).symm
    omega
  · apply List.Sorted.insertionSort_eq
    rw [List.Sorted, List.pairwise_iff_getElem]
    intro i j hi hj hij
    unfold sortKeyRel sort_key
    rw [hpos, ordPositions_getElem id_order ps.current_postion hnd i hi,
      ordPositions_getElem id_order ps.current_postion hnd j hj]
    simp
    omega

/-- Counterexample to C7 as stated: with the duplicated id list
`[1, 2, 1]`, the rebuilt positions are `1 ↦ 2` and `2 ↦ 1` (the later
duplicate wins), so sorting the ids of `id_order` by `sort_key` yields
`[2, 1, 1]`, not `id_order` itself. -/
theorem set_new_order_duplicate_ids :
    List.insertionSort (sortKeyRel (set_new_order ⟨fun _ => none, 0⟩ [1, 2, 1]))
        [1, 2, 1] = [2, 1, 1] ∧
      ([2, 1, 1] : List Nat) ≠ [1, 2, 1] := by
  constructor
  · decide
  · decide

/-- Witness for the amended C7 on the duplicate-free order `[5, 3]`. -/
theorem set_new_order_rewrites_wholesale_witness :
    (((set_new_order ⟨fun _ => none, 0⟩ [5, 3]).positions 5).isSome = true) ∧
      List.insertionSort (sortKeyRel (set_new_order ⟨fun _ => none, 0⟩ [5, 3]))
        [5, 3] = [5, 3] := by
  constructor
  · exact ((set_new_order_rewrites_wholesale ⟨fun _ => none, 0⟩ [5, 3]
      (by decide)).1 5).mpr (by decide)
  · exact (set_new_order_rewrites_wholesale ⟨fun _ => none, 0⟩ [5, 3]
      (by decide)).2.2

end Miro
